import Mathlib

/-!
Verification of the `ecs` module (src/unnamed/part_000, refined module after the
related-doc separator; this is the module that `assets/Scripts` imports as
`Libs/ECS`).  The TypeScript classes are shallowly embedded: the `Mask`
class (a `Uint32Array` bit set) becomes a `Nat` used as a bit set, the JS
`Map` objects become insertion-ordered association lists, component object
identity (which the source gets from JS reference identity) is modelled by
a fresh natural-number tag handed out whenever `new ctor()` runs, and the
mutable `Context`/`Entity`/`Group` object graph becomes a `World` record
threaded through the operations.
-/

namespace Ecs

/-- Component type id (`ctor.tid` in the source). -/
abbrev Tid := Nat

/-- Entity id (`entity.eid`). -/
abbrev Eid := Nat

/-- Identity tag of a component instance: stands for the JS object identity
of one `new ctor()` result. -/
abbrev InstId := Nat

/-! ### Mask (source class `Mask`, lines 968..1011)

The source stores a `Uint32Array` with bit `num` at word `num / 32`, bit
`num % 32`.  For ids below the registered capacity this is exactly the bit
`num` of the concatenated bit string, so we model the whole array as one
natural number used as a bit set. -/

/-- `Mask` value: the concatenation of the `Uint32Array` words. -/
abbrev Mask := Nat

/-- `mask.set(num)`: `this.mask[num/32] |= (1 << (num%32))`. -/
def Mask.set (m : Mask) (num : Nat) : Mask := m ||| (1 <<< num)

/-- `mask.delete(num)`: `this.mask[num/32] &= ~(1 << (num%32))` — an
AND-NOT, i.e. `Nat.ldiff`. -/
def Mask.delete (m : Mask) (num : Nat) : Mask := Nat.ldiff m (1 <<< num)

/-- `mask.has(num)`: `!!(this.mask[num/32] & (1 << (num%32)))`. -/
def Mask.has (m : Mask) (num : Nat) : Bool := m.testBit num

/-- `this.or(other)`: true iff some word-wise AND is non-zero. -/
def Mask.or (m other : Mask) : Bool := decide (m &&& other ≠ 0)

/-- `this.and(other)`: true iff every word satisfies
`(this & other) == this`, i.e. `this` is a bitwise subset of `other`. -/
def Mask.and (m other : Mask) : Bool := decide (m &&& other = m)

/-- `mask.clear()`: zero every word. -/
def Mask.clearAll : Mask := 0

/-! ### JS `Map` objects

`eid2Entity`, `compTid2Ctor`, `tid2comp` and `Group._matchEntities` are JS
`Map`s keyed by numbers.  A JS `Map` preserves insertion order, `set` on a
present key overwrites in place, and `delete` removes the key, so we model
them as insertion-ordered association lists with no duplicate keys. -/

/-- `map.get(k)` (first matching key). -/
def mapLookup {α : Type} : List (Nat × α) → Nat → Option α
  | [], _ => none
  | (k, v) :: l, k₀ => if k = k₀ then some v else mapLookup l k₀

/-- `map.set(k, v)`: overwrite in place if present, else append. -/
def mapSet {α : Type} : List (Nat × α) → Nat → α → List (Nat × α)
  | [], k₀, v₀ => [(k₀, v₀)]
  | (k, v) :: l, k₀, v₀ =>
    if k = k₀ then (k₀, v₀) :: l else (k, v) :: mapSet l k₀ v₀

/-- `map.delete(k)`. -/
def mapErase {α : Type} : List (Nat × α) → Nat → List (Nat × α)
  | [], _ => []
  | (k, v) :: l, k₀ => if k = k₀ then l else (k, v) :: mapErase l k₀

/-- Mutate the value stored under a key in place (models field assignment on
the object returned by a lookup). -/
def mapUpdate {α : Type} : List (Nat × α) → Nat → (α → α) → List (Nat × α)
  | [], _, _ => []
  | (k, v) :: l, k₀, f =>
    if k = k₀ then (k, f v) :: mapUpdate l k₀ f else (k, v) :: mapUpdate l k₀ f

/-! ### Matcher rules (source classes `BaseOf`, `AnyOf`, `AllOf`,
`ExcludeOf`, lines 1171..1240)

`BaseOf`'s constructor folds its arguments into a `Mask` and into a
deduplicated, numerically sorted `indices` array.  We store the raw
argument list and compute both derived views, which is extensionally the
same data. -/

inductive RuleKind where
  | anyOf
  | allOf
  | excludeOf
deriving DecidableEq

structure Rule where
  kind : RuleKind
  args : List Tid
deriving DecidableEq

/-- The `this.mask` a `BaseOf` builds: `mask.set(tid)` for every argument. -/
def Rule.mask (r : Rule) : Mask := r.args.foldl Mask.set 0

/-- Deduplication step of the `BaseOf` constructor: keep the first
occurrence of each id (`indexOf < 0` before pushing). -/
def dedupKeep (seen : List Tid) : List Tid → List Tid
  | [] => []
  | a :: l => if a ∈ seen then dedupKeep seen l else a :: dedupKeep (a :: seen) l

def dedupFirst (l : List Tid) : List Tid := dedupKeep [] l

/-- Numeric ascending insertion used to model the constructor's
`indices.sort((a, b) => a - b)`. -/
def sortInsert (a : Tid) : List Tid → List Tid
  | [] => [a]
  | b :: l => if a ≤ b then a :: b :: l else b :: sortInsert a l

def sortTids (l : List Tid) : List Tid := l.foldr sortInsert []

/-- `this.indices` of a `BaseOf`: arguments deduplicated then numerically
sorted (the source skips the sort call when there are fewer than two
entries, which sorts to the same list). -/
def Rule.indices (r : Rule) : List Tid := sortTids (dedupFirst r.args)

/-- `isMatch` of the three rule classes, evaluated against an entity mask:
`AnyOf` is `this.mask.or(entity.mask)`, `AllOf` is
`this.mask.and(entity.mask)`, `ExcludeOf` is `!this.mask.or(entity.mask)`. -/
def Rule.isMatch (r : Rule) (em : Mask) : Bool :=
  match r.kind with
  | .anyOf => Mask.or r.mask em
  | .allOf => Mask.and r.mask em
  | .excludeOf => !(Mask.or r.mask em)

/-! ### Matcher / OrMatcher (lines 1252..1431)

`Matcher.isMatch` is the conjunction of its rules (the source special-cases
rule counts 1 and 2 with `&&`, which computes the same conjunction);
`OrMatcher` overrides it with the disjunction.  The subclass relationship
is modelled by an `isOr` flag. -/

structure Matcher where
  rules : List Rule
  isOr : Bool
deriving DecidableEq

/-- `matcher.indices`: the rule index arrays concatenated with
`Array.prototype.push.apply` (no cross-rule deduplication). -/
def Matcher.indices (m : Matcher) : List Tid :=
  m.rules.foldl (fun acc r => acc ++ r.indices) []

def Matcher.isMatch (m : Matcher) (em : Mask) : Bool :=
  if m.isOr then m.rules.any (fun r => r.isMatch em)
  else m.rules.all (fun r => r.isMatch em)

def Matcher.empty : Matcher := { rules := [], isOr := false }

/-- `matcher.anyOf(...)`: push an `AnyOf` rule. -/
def Matcher.anyOfM (m : Matcher) (args : List Tid) : Matcher :=
  { m with rules := m.rules ++ [{ kind := .anyOf, args := args }] }

/-- `matcher.allOf(...)`: push an `AllOf` rule. -/
def Matcher.allOfM (m : Matcher) (args : List Tid) : Matcher :=
  { m with rules := m.rules ++ [{ kind := .allOf, args := args }] }

/-- `matcher.excludeOf(...)`: push an `ExcludeOf` rule. -/
def Matcher.excludeOfM (m : Matcher) (args : List Tid) : Matcher :=
  { m with rules := m.rules ++ [{ kind := .excludeOf, args := args }] }

/-- `matcher.onlyOf(...)` (lines 1323..1338): push `AllOf(args)` and then
`ExcludeOf(otherTids)` where `otherTids` are the tids of every registered
component constructor not among `args`, in registration order.  With `n`
registered types the registry's tids are `0, 1, ..., n-1` in order. -/
def Matcher.onlyOfM (m : Matcher) (n : Nat) (args : List Tid) : Matcher :=
  { m with rules := m.rules ++
      [{ kind := .allOf, args := args },
       { kind := .excludeOf, args := (List.range n).filter (fun t => t ∉ args) }] }

/-- Static helper `Matcher.allOf(...)`. -/
def Matcher.allOfNew (args : List Tid) : Matcher := Matcher.empty.allOfM args

/-- Static helper `Matcher.anyOf(...)`. -/
def Matcher.anyOfNew (args : List Tid) : Matcher := Matcher.empty.anyOfM args

/-- Static helper `Matcher.excludeOf(...)`. -/
def Matcher.excludeOfNew (args : List Tid) : Matcher := Matcher.empty.excludeOfM args

/-- Static helper `Matcher.onlyOf(...)` against a registry of `n` types. -/
def Matcher.onlyOfNew (n : Nat) (args : List Tid) : Matcher :=
  Matcher.empty.onlyOfM n args

/-! ### Group (lines 1107..1169)

`_matchEntities` is a `Map` from eid to the entity object; membership is
decided by the eid key, so we keep the ordered key list.  `matchEntities`
(the lazily rebuilt `_entitiesCache`) always equals the current values of
the map in key order, so the cache field itself carries no extra state and
is not modelled.  `count` is a separately maintained counter. -/

structure Group where
  matcher : Matcher
  matched : List Eid
  count : Nat
deriving DecidableEq

/-- `group.onComponentAddOrRemove(entity)` (lines 1151..1162): if the
matcher matches the entity's current mask, `Map.set` it (which is a pure
overwrite when the eid is already a key) and increment `count`
unconditionally; otherwise delete it and decrement `count` only when it was
present. -/
def Group.onComponentAddOrRemove (g : Group) (eid : Eid) (em : Mask) : Group :=
  if g.matcher.isMatch em then
    { g with
      matched := if eid ∈ g.matched then g.matched else g.matched ++ [eid],
      count := g.count + 1 }
  else if eid ∈ g.matched then
    { g with matched := g.matched.erase eid, count := g.count - 1 }
  else g

/-- `group.clear()`. -/
def Group.clearAll (g : Group) : Group := { g with matched := [], count := 0 }

def applyTimes {α : Type} (f : α → α) : Nat → α → α
  | 0, a => a
  | n + 1, a => applyTimes f n (f a)

/-- Effect on one group of `broadcastComponentAddOrRemove(entity, tid)`:
`createGroup` pushed `group.onComponentAddOrRemove.bind(group)` onto
`componentAddOrRemove[id]` once per occurrence of `id` in
`matcher.indices`, so the callback fires `count tid` times (zero times when
the group is not subscribed to `tid`). -/
def Group.notify (g : Group) (tid : Tid) (eid : Eid) (em : Mask) : Group :=
  applyTimes (fun g => g.onComponentAddOrRemove eid em)
    (g.matcher.indices.count tid) g

/-! ### Entity and Context state (lines 811..966 and 1013..1104)

The mutable object graph is threaded as a single `World` record:
`Entity.eid` static counter, per-type component pools, the entity pool, the
live `eid2Entity` index, every entity object ever constructed, the
registered groups, and the module-level singleton map `tid2comp`.  A `log`
of `(eid, tid)` pairs records each `broadcastComponentAddOrRemove` call so
broadcast counts are observable. -/

structure EntityRec where
  /-- `entity.mask`. -/
  mask : Mask
  /-- `compTid2Ctor` merged with the `this[ctor.compName]` slots: the
  attached component instance per tid, in `Map` insertion order. -/
  comps : List (Tid × InstId)
  /-- Whether `entity.context` is non-null. -/
  hasContext : Bool
deriving DecidableEq

structure World where
  /-- `context.totalComponents`. -/
  totalComponents : Nat
  /-- Static `Entity.eid` auto-increment (starts at 1). -/
  nextEid : Nat
  /-- Fresh tag source standing for `new ctor()` object identity. -/
  nextInst : Nat
  /-- `context.componentPools`, one stack per tid. -/
  pools : List (List InstId)
  /-- `context.entityPool` (a stack: push/pop at the end). -/
  entityPool : List Eid
  /-- Key list of `context.eid2Entity` in insertion order. -/
  liveIndex : List Eid
  /-- Every entity object ever constructed, keyed by eid. -/
  ents : List (Eid × EntityRec)
  /-- Registered groups, in registration order. -/
  groups : List Group
  /-- Module-level singleton map `tid2comp`. -/
  singletons : List (Tid × InstId)
  /-- One entry per `broadcastComponentAddOrRemove(entity, tid)` call. -/
  log : List (Eid × Tid)
deriving DecidableEq

/-- Mask of the entity object with id `eid` (0 if no such object, which
never happens for eids produced by `createEntity`). -/
def World.entMask (w : World) (eid : Eid) : Mask :=
  ((mapLookup w.ents eid).map EntityRec.mask).getD 0

/-- Attached components of the entity object with id `eid`. -/
def World.entComps (w : World) (eid : Eid) : List (Tid × InstId) :=
  ((mapLookup w.ents eid).map EntityRec.comps).getD []

def World.updateEnt (w : World) (eid : Eid) (f : EntityRec → EntityRec) : World :=
  { w with ents := mapUpdate w.ents eid f }

/-- `new Context()` (lines 843..857): takes over the module registry (here:
its size `n`, the tids being `0..n-1`), builds the empty pools and
subscriber lists, then throws `最多支持64种组件！` when more than 64
component types are registered. -/
def World.fresh (n : Nat) : World :=
  { totalComponents := n
    nextEid := 1
    nextInst := 0
    pools := List.replicate n []
    entityPool := []
    liveIndex := []
    ents := []
    groups := []
    singletons := []
    log := [] }

def Context.new (n : Nat) : Except String World :=
  if n > 64 then .error "最多支持64种组件！" else .ok (World.fresh n)

/-- `context.createGroup(matcher, systemType)` (lines 911..923), miss path:
construct the group empty and subscribe it to every id in
`matcher.indices` (the subscription itself is implicit in `Group.notify`).
The registry lookup by `systemType + matcher.getKey()` only deduplicates
repeated requests; no claim exercises a repeated request, so each call here
registers a fresh group. -/
def World.createGroup (w : World) (m : Matcher) : World :=
  { w with groups := w.groups ++ [{ matcher := m, matched := [], count := 0 }] }

/-- `context.createComponent(ctor)` (lines 934..937): pop that type's pool
(`Array.pop` takes the last element) or construct a fresh instance. -/
def World.createComponent (w : World) (tid : Tid) : World × InstId :=
  match (w.pools.getD tid []).getLast? with
  | some inst =>
      ({ w with pools := w.pools.set tid (w.pools.getD tid []).dropLast }, inst)
  | none => ({ w with nextInst := w.nextInst + 1 }, w.nextInst)

/-- `context.putComponent(tid, component)` (lines 939..941). -/
def World.putComponent (w : World) (tid : Tid) (inst : InstId) : World :=
  { w with pools := w.pools.set tid ((w.pools.getD tid []) ++ [inst]) }

/-- `context.broadcastComponentAddOrRemove(entity, tid)` (lines 948..957):
invoke every subscriber registered for `tid` (the loop runs in reverse
registration order, but each callback touches only its own group, so the
per-group effect is order-independent and modelled by a map), then drop a
singleton binding for `tid` if one exists. -/
def World.broadcast (w : World) (eid : Eid) (tid : Tid) : World :=
  { w with
    groups := w.groups.map (fun g => g.notify tid eid (w.entMask eid)),
    singletons := mapErase w.singletons tid,
    log := w.log ++ [(eid, tid)] }

/-- `context.createEntity()` (lines 862..867): pop the entity pool or
construct a new `Entity` (taking the next static eid), `reset` binds the
context, then the entity is registered in `eid2Entity`. -/
def World.createEntity (w : World) : World × Eid :=
  match w.entityPool.getLast? with
  | some eid =>
      let w := { w with entityPool := w.entityPool.dropLast }
      let w := w.updateEnt eid (fun e => { e with hasContext := true })
      ({ w with liveIndex :=
          if eid ∈ w.liveIndex then w.liveIndex else w.liveIndex ++ [eid] }, eid)
  | none =>
      let eid := w.nextEid
      let w := { w with
        nextEid := w.nextEid + 1,
        ents := mapSet w.ents eid { mask := 0, comps := [], hasContext := true } }
      ({ w with liveIndex :=
          if eid ∈ w.liveIndex then w.liveIndex else w.liveIndex ++ [eid] }, eid)

/-- `entity.remove(ctor)` (lines 1079..1088): when the mask has the tid,
return the slot's instance to the pool, null the slot, clear the mask bit,
broadcast, and drop the `compTid2Ctor` entry; otherwise do nothing (the
source does not check `this.context` here, but on a destroyed entity the
mask is empty, so the guard fails before the context would be touched). -/
def World.entityRemove (w : World) (eid : Eid) (tid : Tid) : World :=
  match mapLookup w.ents eid with
  | none => w
  | some er =>
    if Mask.has er.mask tid then
      let inst := (mapLookup er.comps tid).getD 0
      let w := w.putComponent tid inst
      let w := w.updateEnt eid (fun e =>
        { e with mask := Mask.delete e.mask tid, comps := mapErase e.comps tid })
      w.broadcast eid tid
    else w

/-- `entity.add(ctor)` (lines 1048..1069): warn and return `undefined` when
the context is gone; otherwise remove a present instance first (replace
semantics), set the mask bit, take an instance from the pool or construct
one, bind it into the slot and `compTid2Ctor`, and broadcast. -/
def World.entityAdd (w : World) (eid : Eid) (tid : Tid) : World × Option InstId :=
  match mapLookup w.ents eid with
  | none => (w, none)
  | some er =>
    if er.hasContext then
      let w1 := if Mask.has er.mask tid then w.entityRemove eid tid else w
      let w2 := w1.updateEnt eid (fun e => { e with mask := Mask.set e.mask tid })
      let w3 := (w2.createComponent tid).1
      let inst := (w2.createComponent tid).2
      let w4 := w3.updateEnt eid (fun e => { e with comps := mapSet e.comps tid inst })
      (w4.broadcast eid tid, some inst)
    else (w, none)

/-- `context.destroyEntity(entity)` (lines 896..904): push the entity onto
the pool and drop it from `eid2Entity` when it is live, else only warn. -/
def World.contextDestroyEntity (w : World) (eid : Eid) : World :=
  if eid ∈ w.liveIndex then
    { w with entityPool := w.entityPool ++ [eid], liveIndex := w.liveIndex.erase eid }
  else w

/-- Loop of `entity.destroy()` (lines 1094..1098): for every attached
constructor, in `compTid2Ctor` insertion order, clear the mask bit, then
broadcast, then null the slot (the slot nulling is subsumed by the
`compTid2Ctor.clear()` that follows the loop).  No `putComponent` call
appears here: the instances are dropped, not pooled. -/
def World.destroyLoop (w : World) (eid : Eid) : List (Tid × InstId) → World
  | [] => w
  | (tid, _) :: rest =>
      let w := w.updateEnt eid (fun e => { e with mask := Mask.delete e.mask tid })
      let w := w.broadcast eid tid
      w.destroyLoop eid rest

/-- `entity.destroy()` (lines 1093..1103): run the per-component loop,
clear `compTid2Ctor` and the mask, hand the entity to
`context.destroyEntity`, and null the context.  When `this.context` is
already null (second destroy) the source reaches
`this.context.destroyEntity(this)` and throws a `TypeError`; the `Bool`
result is `false` for that crash (a reachable already-destroyed entity has
no attached components, so the preceding loop and clears did nothing). -/
def World.entityDestroy (w : World) (eid : Eid) : World × Bool :=
  match mapLookup w.ents eid with
  | none => (w, false)
  | some er =>
    let w := w.destroyLoop eid er.comps
    let w := w.updateEnt eid (fun e => { e with comps := [], mask := 0 })
    if er.hasContext then
      let w := w.contextDestroyEntity eid
      (w.updateEnt eid (fun e => { e with hasContext := false }), true)
    else (w, false)

/-- `ecs.getSinglton(ctor)` (lines 802..808): serve the cached binding, or
create a backing entity with the component via `createEntityWithComp`
(lines 873..876) and cache the returned instance. -/
def World.getSinglton (w : World) (tid : Tid) : World × InstId :=
  match mapLookup w.singletons tid with
  | some inst => (w, inst)
  | none =>
      let w1 := (w.createEntity).1
      let eid := (w.createEntity).2
      let w2 := ((w1.entityAdd eid tid)).1
      let inst := ((w1.entityAdd eid tid).2).getD 0
      ({ w2 with singletons := mapSet w2.singletons tid inst }, inst)

/-! ### ReactiveSystem and RootSystem (lines 1499..1527 and 1625..1631)

A `ReactiveSystem` owns one group (registered under the `r` kind);
`execute` passes `group.matchEntities` (the map values in key order — our
`matched` list) to `update` and then clears the group.  `RootSystem.execute`
runs a system only when its group's `count` is positive.  `update` itself
is application code; what the runtime determines is the entity list handed
to it, which the model returns. -/

structure ReactiveSys where
  group : Group
deriving DecidableEq

/-- `ReactiveSystem.execute(dt)`: the delivered entity list, and the system
after `this.group.clear()`. -/
def ReactiveSys.execute (s : ReactiveSys) : List Eid × ReactiveSys :=
  (s.group.matched, { group := s.group.clearAll })

/-- One `RootSystem.execute(dt)` tick restricted to this system: skip it
(delivering nothing) unless `group.count > 0`. -/
def rootTick (s : ReactiveSys) : List Eid × ReactiveSys :=
  if s.group.count > 0 then s.execute else ([], s)

/-- Deliveries of successive ticks with no component mutation in between:
`runTicks s 0` is the tick where the group currently holds its entities
(tick N), `runTicks s (k+1)` is tick N+k+1. -/
def runTicks (s : ReactiveSys) : Nat → List Eid × ReactiveSys
  | 0 => rootTick s
  | k + 1 => rootTick (runTicks s k).2

/-! ### Derived definitions used by the verification -/

/-- One mutation on a fixed entity: `entity.add(ctor)` or
`entity.remove(ctor)` for a component type `tid`. -/
inductive EOp where
  | add (tid : Tid)
  | remove (tid : Tid)
deriving DecidableEq

def World.applyOp (w : World) (eid : Eid) : EOp → World
  | .add tid => (w.entityAdd eid tid).1
  | .remove tid => w.entityRemove eid tid

def World.applyOps (w : World) (eid : Eid) (ops : List EOp) : World :=
  ops.foldl (fun w op => w.applyOp eid op) w

/-- Group consistency for one entity: every registered group contains the
entity exactly when its matcher accepts the entity's current mask (and its
membership list is duplicate-free, as a `Map` key set is). -/
def GroupInv (w : World) (eid : Eid) : Prop :=
  ∀ g ∈ w.groups,
    ((eid ∈ g.matched) ↔ g.matcher.isMatch (w.entMask eid) = true) ∧ g.matched.Nodup

instance (w : World) (eid : Eid) : Decidable (GroupInv w eid) := by
  unfold GroupInv
  infer_instance

/-- Effect of the `entity.destroy()` loop on a single group: for each
attached component, the entity mask loses that bit and the group is
notified with the post-deletion mask. -/
def notifyLoop (eid : Eid) (g : Group) (m : Mask) : List (Tid × InstId) → Group
  | [] => g
  | (t, _) :: rest => notifyLoop eid (g.notify t eid (Mask.delete m t)) (Mask.delete m t) rest

/-! ### Concrete scenario worlds -/

/-- One registered type, a group over `Matcher.excludeOf(type 0)` and a
freshly created entity (eid 1) that has received no mutation. -/
def cexWorldC1 : World :=
  (((World.fresh 1).createGroup (Matcher.excludeOfNew [0])).createEntity).1

/-- One registered type, a group over `Matcher.allOf(type 0)` and a fresh
entity (eid 1). -/
def witWorldC1 : World :=
  (((World.fresh 1).createGroup (Matcher.allOfNew [0])).createEntity).1

/-- Two registered types, a group over `Matcher.anyOf(type 0, type 1)`;
entity 1 adds component 0 and then component 1. -/
def bugWorldC2 : World :=
  let w := (World.fresh 2).createGroup (Matcher.anyOfNew [0, 1])
  let w := (w.createEntity).1
  let w := (w.entityAdd 1 0).1
  (w.entityAdd 1 1).1

/-- One registered type and a fresh entity (eid 1). -/
def witWorldC3 : World := ((World.fresh 1).createEntity).1

/-- A context with no registered types whose only entity (eid 1) has been
destroyed once via `entity.destroy()`. -/
def bugWorldC5 : World := (((World.fresh 0).createEntity).1.entityDestroy 1).1

/-- One registered type; entity 1 holds a freshly constructed instance of
component 0 (instance tag 0). -/
def cexWorldC6 : World := (((World.fresh 1).createEntity).1.entityAdd 1 0).1

/-- One registered type: `getSinglton(type 0)` has created its backing
entity (eid 1) carrying instance 0. -/
def cexWorldC7a : World × InstId := (World.fresh 1).getSinglton 0

/-- ... then component 0 is removed from the backing entity, which pools
instance 0 and evicts the singleton binding. -/
def cexWorldC7b : World := cexWorldC7a.1.entityRemove 1 0

/-- ... and `getSinglton(type 0)` runs again. -/
def cexWorldC7c : World × InstId := cexWorldC7b.getSinglton 0

/-- A reactive group over `Matcher.allOf(type 0)` currently holding entity
7, as after a broadcast that matched it. -/
def witGroupC8 : Group := { matcher := Matcher.allOfNew [0], matched := [7], count := 1 }

/-- One registered type, a group over `Matcher.excludeOf(type 0)`; entity 1
holds component 0 (not in the group, since its mask overlaps the
exclusion). -/
def witWorldC10 : World :=
  ((((World.fresh 1).createGroup (Matcher.excludeOfNew [0])).createEntity).1.entityAdd 1 0).1

/-! ### Lemmas: mask algebra -/

theorem Mask.has_set (m : Mask) (i j : Nat) :
    Mask.has (Mask.set m i) j = (Mask.has m j || decide (i = j)) := by
  simp [Mask.has, Mask.set, Nat.testBit_lor, Nat.one_shiftLeft, Nat.testBit_two_pow]

theorem Mask.has_delete (m : Mask) (i j : Nat) :
    Mask.has (Mask.delete m i) j = (Mask.has m j && !decide (i = j)) := by
  simp [Mask.has, Mask.delete, Nat.testBit_ldiff, Nat.one_shiftLeft, Nat.testBit_two_pow]

theorem Mask.or_eq_true_iff (a b : Mask) :
    Mask.or a b = true ↔ ∃ i, a.testBit i = true ∧ b.testBit i = true := by
  unfold Mask.or
  rw [decide_eq_true_iff]
  constructor
  · intro h
    by_contra hc
    push_neg at hc
    apply h
    apply Nat.eq_of_testBit_eq
    intro i
    rw [Nat.testBit_land, Nat.zero_testBit]
    cases ha : a.testBit i with
    | false => simp
    | true => simpa using hc i ha
  · rintro ⟨i, ha, hb⟩ h0
    have := congrArg (fun n => n.testBit i) h0
    simp [Nat.testBit_land, ha, hb] at this

theorem Mask.and_eq_true_iff (a b : Mask) :
    Mask.and a b = true ↔ ∀ i, a.testBit i = true → b.testBit i = true := by
  unfold Mask.and
  rw [decide_eq_true_iff]
  constructor
  · intro h i ha
    have := congrArg (fun n => n.testBit i) h
    simp only [Nat.testBit_land] at this
    rw [ha] at this
    simpa using this
  · intro h
    apply Nat.eq_of_testBit_eq
    intro i
    rw [Nat.testBit_land]
    cases ha : a.testBit i with
    | false => simp
    | true => simp [h i ha]

/-! ### Lemmas: rule and matcher semantics -/

theorem testBit_foldl_maskSet (args : List Tid) (m : Mask) (i : Nat) :
    (args.foldl Mask.set m).testBit i = (m.testBit i || decide (i ∈ args)) := by
  induction args generalizing m with
  | nil => simp
  | cons a l ih =>
      rw [List.foldl_cons, ih]
      have hset : Nat.testBit (Mask.set m a) i = (m.testBit i || decide (a = i)) :=
        Mask.has_set m a i
      rw [hset]
      by_cases hai : i = a
      · subst hai
        simp [List.mem_cons]
      · simp [List.mem_cons, hai, Ne.symm hai]

theorem Rule.testBit_mask (r : Rule) (i : Nat) :
    r.mask.testBit i = decide (i ∈ r.args) := by
  unfold Rule.mask
  rw [testBit_foldl_maskSet]
  simp

theorem mem_dedupKeep (l : List Tid) (seen : List Tid) (i : Tid) :
    i ∈ dedupKeep seen l ↔ i ∈ l ∧ i ∉ seen := by
  induction l generalizing seen with
  | nil => simp [dedupKeep]
  | cons a l ih =>
      unfold dedupKeep
      by_cases ha : a ∈ seen
      · rw [if_pos ha, ih]
        constructor
        · rintro ⟨h1, h2⟩
          exact ⟨List.mem_cons_of_mem _ h1, h2⟩
        · rintro ⟨h1, h2⟩
          rcases List.mem_cons.mp h1 with rfl | h
          · exact absurd ha h2
          · exact ⟨h, h2⟩
      · rw [if_neg ha, List.mem_cons, ih]
        constructor
        · rintro (rfl | ⟨h1, h2⟩)
          · exact ⟨List.mem_cons_self _ _, ha⟩
          · exact ⟨List.mem_cons_of_mem _ h1, fun hc => h2 (List.mem_cons_of_mem _ hc)⟩
        · rintro ⟨h1, h2⟩
          rcases List.mem_cons.mp h1 with h | h
          · exact Or.inl h
          · by_cases hia : i = a
            · exact Or.inl hia
            · refine Or.inr ⟨h, fun hc => ?_⟩
              rcases List.mem_cons.mp hc with h3 | h3
              · exact hia h3
              · exact h2 h3

theorem mem_dedupFirst (l : List Tid) (i : Tid) : i ∈ dedupFirst l ↔ i ∈ l := by
  unfold dedupFirst
  rw [mem_dedupKeep]
  simp

theorem mem_sortInsert (a : Tid) (l : List Tid) (i : Tid) :
    i ∈ sortInsert a l ↔ i = a ∨ i ∈ l := by
  induction l with
  | nil => simp [sortInsert]
  | cons b l ih =>
      unfold sortInsert
      by_cases hab : a ≤ b
      · simp [hab]
      · rw [if_neg hab]
        rw [List.mem_cons, ih, List.mem_cons]
        tauto

theorem mem_sortTids (l : List Tid) (i : Tid) : i ∈ sortTids l ↔ i ∈ l := by
  unfold sortTids
  induction l with
  | nil => simp
  | cons a l ih =>
      rw [List.foldr_cons, mem_sortInsert, ih, List.mem_cons]

theorem Rule.mem_indicesOfArgs (r : Rule) (i : Tid) : i ∈ r.indices ↔ i ∈ r.args := by
  unfold Rule.indices
  rw [mem_sortTids, mem_dedupFirst]

theorem mem_foldl_append_indices (rules : List Rule) (acc : List Tid) (i : Tid) :
    i ∈ rules.foldl (fun acc r => acc ++ r.indices) acc ↔
      i ∈ acc ∨ ∃ r ∈ rules, i ∈ r.args := by
  induction rules generalizing acc with
  | nil => simp
  | cons r rules ih =>
      rw [List.foldl_cons, ih]
      rw [List.mem_append, Rule.mem_indicesOfArgs]
      constructor
      · rintro ((h | h) | ⟨r2, h1, h2⟩)
        · exact Or.inl h
        · exact Or.inr ⟨r, List.mem_cons_self _ _, h⟩
        · exact Or.inr ⟨r2, List.mem_cons_of_mem _ h1, h2⟩
      · rintro (h | ⟨r2, h1, h2⟩)
        · exact Or.inl (Or.inl h)
        · rcases List.mem_cons.mp h1 with h3 | h3
          · exact Or.inl (Or.inr (h3 ▸ h2))
          · exact Or.inr ⟨r2, h3, h2⟩

theorem Matcher.mem_indices (m : Matcher) (i : Tid) :
    i ∈ m.indices ↔ ∃ r ∈ m.rules, i ∈ r.args := by
  unfold Matcher.indices
  rw [mem_foldl_append_indices]
  simp

theorem Rule.isMatch_congrOfArgs (r : Rule) (em em2 : Mask)
    (h : ∀ i ∈ r.args, em.testBit i = em2.testBit i) :
    r.isMatch em = r.isMatch em2 := by
  have hland : r.mask &&& em = r.mask &&& em2 := by
    apply Nat.eq_of_testBit_eq
    intro i
    rw [Nat.testBit_land, Nat.testBit_land]
    cases hm : r.mask.testBit i with
    | false => simp
    | true =>
        have hi : i ∈ r.args := by
          have := Rule.testBit_mask r i
          rw [hm] at this
          exact of_decide_eq_true this.symm
        rw [h i hi]
  unfold Rule.isMatch Mask.or Mask.and
  cases r.kind <;> rw [hland]

theorem Matcher.isMatch_congr (m : Matcher) (em em2 : Mask)
    (h : ∀ i ∈ m.indices, em.testBit i = em2.testBit i) :
    m.isMatch em = m.isMatch em2 := by
  have hr : ∀ r ∈ m.rules, r.isMatch em = r.isMatch em2 := by
    intro r hrm
    exact Rule.isMatch_congrOfArgs r em em2 fun i hi =>
      h i ((Matcher.mem_indices m i).mpr ⟨r, hrm, hi⟩)
  have hall : (m.rules.all fun r => r.isMatch em) = (m.rules.all fun r => r.isMatch em2) := by
    apply Bool.eq_iff_iff.mpr
    rw [List.all_eq_true, List.all_eq_true]
    constructor
    · intro h1 r h2
      exact (hr r h2).symm.trans (h1 r h2)
    · intro h1 r h2
      exact (hr r h2).trans (h1 r h2)
  have hany : (m.rules.any fun r => r.isMatch em) = (m.rules.any fun r => r.isMatch em2) := by
    apply Bool.eq_iff_iff.mpr
    rw [List.any_eq_true, List.any_eq_true]
    constructor
    · rintro ⟨r, h1, h2⟩
      exact ⟨r, h1, (hr r h1).symm.trans h2⟩
    · rintro ⟨r, h1, h2⟩
      exact ⟨r, h1, (hr r h1).trans h2⟩
  unfold Matcher.isMatch
  rw [hall, hany]

/-! ### Lemmas: association lists -/

def mapKeys {α : Type} (l : List (Nat × α)) : List Nat := l.map Prod.fst

theorem mapLookup_mapSet_self {α : Type} (l : List (Nat × α)) (k : Nat) (v : α) :
    mapLookup (mapSet l k v) k = some v := by
  induction l with
  | nil => simp [mapSet, mapLookup]
  | cons p l ih =>
      obtain ⟨k1, v1⟩ := p
      unfold mapSet
      by_cases h : k1 = k
      · rw [if_pos h]
        simp [mapLookup]
      · rw [if_neg h]
        simpa [mapLookup, h] using ih

theorem mapLookup_mapUpdate {α : Type} (l : List (Nat × α)) (k : Nat) (f : α → α) :
    mapLookup (mapUpdate l k f) k = (mapLookup l k).map f := by
  induction l with
  | nil => simp [mapUpdate, mapLookup]
  | cons p l ih =>
      obtain ⟨k1, v1⟩ := p
      by_cases h : k1 = k
      · subst h
        simp [mapUpdate, mapLookup]
      · simp only [mapUpdate, if_neg h, mapLookup]
        exact ih

theorem mapLookup_eq_none_iff {α : Type} (l : List (Nat × α)) (k : Nat) :
    mapLookup l k = none ↔ k ∉ mapKeys l := by
  induction l with
  | nil => simp [mapLookup, mapKeys]
  | cons p l ih =>
      obtain ⟨k1, v1⟩ := p
      by_cases h : k1 = k
      · subst h
        simp [mapLookup, mapKeys]
      · have h2 : ¬ k = k1 := Ne.symm h
        simp only [mapLookup, if_neg h, mapKeys, List.map_cons, List.mem_cons]
        have ih2 : mapLookup l k = none ↔ k ∉ List.map Prod.fst l := ih
        rw [ih2]
        tauto

theorem mapKeys_mapSet {α : Type} (l : List (Nat × α)) (k : Nat) (v : α) :
    mapKeys (mapSet l k v) =
      if k ∈ mapKeys l then mapKeys l else mapKeys l ++ [k] := by
  induction l with
  | nil => simp [mapSet, mapKeys]
  | cons p l ih =>
      obtain ⟨k1, v1⟩ := p
      by_cases h : k1 = k
      · subst h
        simp [mapSet, mapKeys]
      · have h2 : ¬ k = k1 := Ne.symm h
        simp only [mapSet, if_neg h, mapKeys, List.map_cons]
        have ih2 : List.map Prod.fst (mapSet l k v) =
            if k ∈ List.map Prod.fst l then List.map Prod.fst l
            else List.map Prod.fst l ++ [k] := ih
        rw [ih2]
        by_cases hk : k ∈ List.map Prod.fst l
        · rw [if_pos hk, if_pos (List.mem_cons.mpr (Or.inr hk))]
        · rw [if_neg hk, if_neg (by simp [List.mem_cons, h2, hk]), List.cons_append]

theorem mapKeys_mapErase {α : Type} (l : List (Nat × α)) (k : Nat) :
    mapKeys (mapErase l k) = (mapKeys l).erase k := by
  induction l with
  | nil => simp [mapErase, mapKeys]
  | cons p l ih =>
      obtain ⟨k1, v1⟩ := p
      by_cases h : k1 = k
      · subst h
        simp [mapErase, mapKeys, List.erase_cons_head]
      · simp only [mapErase, if_neg h, mapKeys, List.map_cons]
        rw [List.erase_cons_tail (by simp [h])]
        exact congrArg (List.cons k1) ih

theorem nodupKeys_mapSet {α : Type} (l : List (Nat × α)) (k : Nat) (v : α)
    (h : (mapKeys l).Nodup) : (mapKeys (mapSet l k v)).Nodup := by
  rw [mapKeys_mapSet]
  by_cases hk : k ∈ mapKeys l
  · rwa [if_pos hk]
  · rw [if_neg hk]
    rw [List.nodup_append]
    refine ⟨h, List.nodup_singleton k, ?_⟩
    intro a ha hak
    rw [List.mem_singleton] at hak
    subst hak
    exact hk ha

theorem nodupKeys_mapErase {α : Type} (l : List (Nat × α)) (k : Nat)
    (h : (mapKeys l).Nodup) : (mapKeys (mapErase l k)).Nodup := by
  rw [mapKeys_mapErase]
  exact h.erase k

theorem not_mem_mapKeys_mapErase_self {α : Type} (l : List (Nat × α)) (k : Nat)
    (h : (mapKeys l).Nodup) : k ∉ mapKeys (mapErase l k) := by
  rw [mapKeys_mapErase]
  exact h.not_mem_erase

/-! ### Lemmas: group notification -/

theorem Group.onComp_matcher (g : Group) (eid : Eid) (em : Mask) :
    (g.onComponentAddOrRemove eid em).matcher = g.matcher := by
  unfold Group.onComponentAddOrRemove
  split
  · rfl
  · split <;> rfl

theorem Group.mem_onComp_self (g : Group) (eid : Eid) (em : Mask)
    (hnd : g.matched.Nodup) :
    (eid ∈ (g.onComponentAddOrRemove eid em).matched ↔ g.matcher.isMatch em = true) := by
  unfold Group.onComponentAddOrRemove
  by_cases hm : g.matcher.isMatch em = true
  · rw [if_pos hm]
    refine iff_of_true ?_ hm
    show eid ∈ (if eid ∈ g.matched then g.matched else g.matched ++ [eid])
    by_cases hin : eid ∈ g.matched
    · rwa [if_pos hin]
    · rw [if_neg hin]
      exact List.mem_append.mpr (Or.inr (List.mem_singleton_self eid))
  · rw [if_neg hm]
    by_cases hin : eid ∈ g.matched
    · rw [if_pos hin]
      exact iff_of_false hnd.not_mem_erase hm
    · rw [if_neg hin]
      exact iff_of_false hin hm

theorem Group.onComp_nodup (g : Group) (eid : Eid) (em : Mask)
    (hnd : g.matched.Nodup) :
    (g.onComponentAddOrRemove eid em).matched.Nodup := by
  unfold Group.onComponentAddOrRemove
  by_cases hm : g.matcher.isMatch em = true
  · rw [if_pos hm]
    show (if eid ∈ g.matched then g.matched else g.matched ++ [eid]).Nodup
    by_cases hin : eid ∈ g.matched
    · rwa [if_pos hin]
    · rw [if_neg hin, List.nodup_append]
      refine ⟨hnd, List.nodup_singleton eid, ?_⟩
      intro a ha hae
      rw [List.mem_singleton] at hae
      subst hae
      exact hin ha
  · rw [if_neg hm]
    by_cases hin : eid ∈ g.matched
    · rw [if_pos hin]
      exact hnd.erase eid
    · rwa [if_neg hin]

theorem applyTimes_matcher (n : Nat) (eid : Eid) (em : Mask) (g : Group) :
    (applyTimes (fun g => g.onComponentAddOrRemove eid em) n g).matcher = g.matcher := by
  induction n generalizing g with
  | zero => rfl
  | succ n ih =>
      unfold applyTimes
      rw [ih, Group.onComp_matcher]

theorem applyTimes_nodup (n : Nat) (eid : Eid) (em : Mask) (g : Group)
    (hnd : g.matched.Nodup) :
    (applyTimes (fun g => g.onComponentAddOrRemove eid em) n g).matched.Nodup := by
  induction n generalizing g with
  | zero => exact hnd
  | succ n ih =>
      unfold applyTimes
      exact ih _ (Group.onComp_nodup g eid em hnd)

theorem applyTimes_mem_succ (n : Nat) (eid : Eid) (em : Mask) (g : Group)
    (hnd : g.matched.Nodup) :
    (eid ∈ (applyTimes (fun g => g.onComponentAddOrRemove eid em) (n + 1) g).matched ↔
      g.matcher.isMatch em = true) := by
  induction n generalizing g with
  | zero => exact Group.mem_onComp_self g eid em hnd
  | succ n ih =>
      show eid ∈ (applyTimes _ (n + 1) (g.onComponentAddOrRemove eid em)).matched ↔ _
      rw [ih _ (Group.onComp_nodup g eid em hnd), Group.onComp_matcher]

theorem Group.notify_matcher (g : Group) (tid : Tid) (eid : Eid) (em : Mask) :
    (g.notify tid eid em).matcher = g.matcher := by
  unfold Group.notify
  exact applyTimes_matcher _ _ _ _

theorem Group.notify_nodup (g : Group) (tid : Tid) (eid : Eid) (em : Mask)
    (hnd : g.matched.Nodup) : (g.notify tid eid em).matched.Nodup := by
  unfold Group.notify
  exact applyTimes_nodup _ _ _ _ hnd

theorem Group.notify_of_not_subscribed (g : Group) (tid : Tid) (eid : Eid) (em : Mask)
    (h : tid ∉ g.matcher.indices) : g.notify tid eid em = g := by
  unfold Group.notify
  rw [List.count_eq_zero.mpr h]
  rfl

theorem Group.mem_notify_of_subscribed (g : Group) (tid : Tid) (eid : Eid) (em : Mask)
    (h : tid ∈ g.matcher.indices) (hnd : g.matched.Nodup) :
    (eid ∈ (g.notify tid eid em).matched ↔ g.matcher.isMatch em = true) := by
  unfold Group.notify
  obtain ⟨k, hk⟩ := Nat.exists_eq_succ_of_ne_zero
    (Nat.pos_iff_ne_zero.mp (List.count_pos_iff.mpr h))
  rw [hk]
  exact applyTimes_mem_succ k eid em g hnd

/-! ### Lemmas: world frames -/

theorem World.createComponent_frame (w : World) (tid : Tid) :
    ((w.createComponent tid).1).ents = w.ents ∧
    ((w.createComponent tid).1).groups = w.groups ∧
    ((w.createComponent tid).1).log = w.log ∧
    ((w.createComponent tid).1).singletons = w.singletons ∧
    ((w.createComponent tid).1).entityPool = w.entityPool ∧
    ((w.createComponent tid).1).liveIndex = w.liveIndex ∧
    ((w.createComponent tid).1).nextEid = w.nextEid := by
  unfold World.createComponent
  split
  · exact ⟨rfl, rfl, rfl, rfl, rfl, rfl, rfl⟩
  · exact ⟨rfl, rfl, rfl, rfl, rfl, rfl, rfl⟩

theorem World.entMask_eq (w : World) (eid : Eid) (er : EntityRec)
    (h : mapLookup w.ents eid = some er) : w.entMask eid = er.mask := by
  unfold World.entMask
  rw [h]
  rfl

theorem World.entMask_updateEnt (w : World) (eid : Eid) (er : EntityRec)
    (f : EntityRec → EntityRec) (h : mapLookup w.ents eid = some er) :
    (w.updateEnt eid f).entMask eid = (f er).mask := by
  unfold World.entMask World.updateEnt
  show ((mapLookup (mapUpdate w.ents eid f) eid).map EntityRec.mask).getD 0 = _
  rw [mapLookup_mapUpdate, h]
  rfl

theorem mapLookup_updateEnt (w : World) (eid : Eid) (f : EntityRec → EntityRec) :
    mapLookup (w.updateEnt eid f).ents eid = (mapLookup w.ents eid).map f := by
  unfold World.updateEnt
  exact mapLookup_mapUpdate w.ents eid f

/-! ### Lemmas: group-consistency preservation (claim C1) -/

theorem groupInv_broadcast (w w1 : World) (eid : Eid) (tid : Tid)
    (hg : w1.groups = w.groups)
    (hmask : ∀ i, i ≠ tid → (w1.entMask eid).testBit i = (w.entMask eid).testBit i)
    (hinv : GroupInv w eid) :
    GroupInv (w1.broadcast eid tid) eid := by
  intro g2 hg2
  have hgs : (w1.broadcast eid tid).groups =
      w1.groups.map (fun g => g.notify tid eid (w1.entMask eid)) := rfl
  rw [hgs, hg] at hg2
  obtain ⟨g, hgmem, rfl⟩ := List.mem_map.mp hg2
  obtain ⟨hiff, hnd⟩ := hinv g hgmem
  by_cases hsub : tid ∈ g.matcher.indices
  · refine ⟨?_, Group.notify_nodup g tid eid _ hnd⟩
    show eid ∈ (g.notify tid eid (w1.entMask eid)).matched ↔
      (g.notify tid eid (w1.entMask eid)).matcher.isMatch (w1.entMask eid) = true
    rw [Group.notify_matcher]
    exact Group.mem_notify_of_subscribed g tid eid _ hsub hnd
  · rw [Group.notify_of_not_subscribed g tid eid _ hsub]
    refine ⟨?_, hnd⟩
    show eid ∈ g.matched ↔ g.matcher.isMatch (w1.entMask eid) = true
    have hcong : g.matcher.isMatch (w1.entMask eid) = g.matcher.isMatch (w.entMask eid) :=
      Matcher.isMatch_congr g.matcher _ _ fun i hi =>
        hmask i (fun hEq => hsub (hEq ▸ hi))
    rw [hcong]
    exact hiff

theorem mapLookup_entityRemove_of_has (w : World) (eid : Eid) (tid : Tid) (er : EntityRec)
    (hent : mapLookup w.ents eid = some er) (hhas : Mask.has er.mask tid = true) :
    mapLookup (w.entityRemove eid tid).ents eid =
      some { er with mask := Mask.delete er.mask tid, comps := mapErase er.comps tid } := by
  unfold World.entityRemove
  rw [hent]
  show mapLookup ((if Mask.has er.mask tid = true then
      ((w.putComponent tid ((mapLookup er.comps tid).getD 0)).updateEnt eid
        (fun e => { e with mask := Mask.delete e.mask tid, comps := mapErase e.comps tid })).broadcast eid tid
    else w)).ents eid = _
  rw [if_pos hhas]
  show mapLookup (mapUpdate w.ents eid
    (fun e => { e with mask := Mask.delete e.mask tid, comps := mapErase e.comps tid })) eid = _
  rw [mapLookup_mapUpdate, hent]
  rfl

theorem groupInv_entityRemove (w : World) (eid : Eid) (tid : Tid)
    (hinv : GroupInv w eid) : GroupInv (w.entityRemove eid tid) eid := by
  unfold World.entityRemove
  split
  · exact hinv
  · rename_i er hent
    split
    · rename_i hhas
      refine groupInv_broadcast w
        ((w.putComponent tid ((mapLookup er.comps tid).getD 0)).updateEnt eid
          (fun e => { e with mask := Mask.delete e.mask tid, comps := mapErase e.comps tid }))
        eid tid rfl ?_ hinv
      intro i hi
      have h1 := World.entMask_updateEnt
        (w.putComponent tid ((mapLookup er.comps tid).getD 0)) eid er
        (fun e => { e with mask := Mask.delete e.mask tid, comps := mapErase e.comps tid })
        hent
      rw [h1, World.entMask_eq w eid er hent]
      have h3 := Mask.has_delete er.mask tid i
      unfold Mask.has at h3
      have hd : (decide (tid = i)) = false := decide_eq_false (fun h => hi h.symm)
      show (Mask.delete er.mask tid).testBit i = er.mask.testBit i
      rw [h3, hd]
      simp
    · exact hinv

theorem groupInv_addCore (w1 : World) (eid : Eid) (tid : Tid) (er1 : EntityRec) (inst : InstId)
    (hent1 : mapLookup w1.ents eid = some er1)
    (hinv1 : GroupInv w1 eid) :
    GroupInv
      ((((w1.updateEnt eid (fun e => { e with mask := Mask.set e.mask tid })).createComponent
          tid).1.updateEnt eid
        (fun e => { e with comps := mapSet e.comps tid inst })).broadcast eid tid) eid := by
  have hframe := World.createComponent_frame
    (w1.updateEnt eid (fun e => { e with mask := Mask.set e.mask tid })) tid
  refine groupInv_broadcast w1
    (((w1.updateEnt eid (fun e => { e with mask := Mask.set e.mask tid })).createComponent
        tid).1.updateEnt eid (fun e => { e with comps := mapSet e.comps tid inst }))
    eid tid ?_ ?_ hinv1
  · show (((w1.updateEnt eid (fun e => { e with mask := Mask.set e.mask tid })).createComponent
        tid).1).groups = w1.groups
    rw [hframe.2.1]
    rfl
  · intro i hi
    have hlookmid : mapLookup (((w1.updateEnt eid (fun e =>
        { e with mask := Mask.set e.mask tid })).createComponent tid).1).ents eid =
        some { er1 with mask := Mask.set er1.mask tid } := by
      rw [hframe.1, mapLookup_updateEnt, hent1]
      rfl
    have h4 := World.entMask_updateEnt _ eid _
      (fun e => { e with comps := mapSet e.comps tid inst }) hlookmid
    rw [h4, World.entMask_eq w1 eid er1 hent1]
    have h3 := Mask.has_set er1.mask tid i
    unfold Mask.has at h3
    have hd : (decide (tid = i)) = false := decide_eq_false (fun h => hi h.symm)
    show (Mask.set er1.mask tid).testBit i = er1.mask.testBit i
    rw [h3, hd]
    simp

theorem groupInv_entityAdd (w : World) (eid : Eid) (tid : Tid)
    (hinv : GroupInv w eid) : GroupInv ((w.entityAdd eid tid).1) eid := by
  unfold World.entityAdd
  split
  · exact hinv
  · rename_i er hent
    split
    · rename_i hctx
      by_cases hhas : Mask.has er.mask tid = true
      · rw [if_pos hhas]
        exact groupInv_addCore (w.entityRemove eid tid) eid tid _ _
          (mapLookup_entityRemove_of_has w eid tid er hent hhas)
          (groupInv_entityRemove w eid tid hinv)
      · rw [if_neg hhas]
        exact groupInv_addCore w eid tid er _ hent hinv
    · exact hinv

/-- C1 (amended): group consistency `contains(e) == m.isMatch(e)` is an
invariant of the add/remove operations — whenever it holds for every
registered group (as it does from entity creation on for any matcher that
rejects the empty mask), it still holds after any sequence of component
add/remove operations on that entity.  The unconditional claim fails for a
fresh entity and a matcher accepted by the empty mask (see the
counterexample): such an entity is in no group until a broadcast on a
subscribed type first delivers it. -/
theorem group_consistency_invariant (ops : List EOp) (w : World) (eid : Eid)
    (hinv : GroupInv w eid) : GroupInv (w.applyOps eid ops) eid := by
  induction ops generalizing w with
  | nil => exact hinv
  | cons op ops ih =>
      show GroupInv ((w.applyOp eid op).applyOps eid ops) eid
      refine ih _ ?_
      cases op with
      | add tid => exact groupInv_entityAdd w eid tid hinv
      | remove tid => exact groupInv_entityRemove w eid tid hinv

/-- Witness for C1: with one registered type, a group over
`Matcher.allOf(type 0)` and fresh entity 1, the invariant holds initially
and after the operation sequence add 0, remove 0, add 0. -/
theorem group_consistency_invariant_witness :
    GroupInv witWorldC1 1 ∧
      GroupInv (witWorldC1.applyOps 1 [EOp.add 0, EOp.remove 0, EOp.add 0]) 1 :=
  ⟨by decide,
    group_consistency_invariant [EOp.add 0, EOp.remove 0, EOp.add 0] witWorldC1 1 (by decide)⟩

/-- Counterexample to C1 as stated: with one registered type and a group
over `Matcher.excludeOf(type 0)`, a freshly created entity (empty operation
sequence) satisfies the matcher but is not in the group's membership set. -/
theorem excludeOf_fresh_entity_cex :
    (Matcher.excludeOfNew [0]).isMatch (cexWorldC1.entMask 1) = true ∧
      cexWorldC1.groups.map Group.matcher = [Matcher.excludeOfNew [0]] ∧
      cexWorldC1.groups.map Group.matched = [[]] ∧
      1 ∈ cexWorldC1.liveIndex := by
  decide

/-- C2 (code bug): with two registered types and a group over
`Matcher.anyOf(type 0, type 1)`, entity 1 adding component 0 and then
component 1 leaves the group holding exactly one entity but `count = 2`:
the second notification finds the still-matching entity already in the
membership map (a `Map.set` no-op) yet increments `count`
unconditionally. -/
theorem anyOf_double_count_bug :
    bugWorldC2.groups.map Group.matcher = [Matcher.anyOfNew [0, 1]] ∧
      bugWorldC2.groups.map (fun g => (g.count, g.matched)) = [(2, [1])] := by
  decide

/-- C4: the refined `Context` constructor throws its configuration error
exactly when more than 64 component types are registered. -/
theorem context_ctor_component_limit (n : Nat) :
    (∃ e, Context.new n = .error e) ↔ 64 < n := by
  unfold Context.new
  by_cases h : n > 64
  · rw [if_pos h]
    exact iff_of_true ⟨_, rfl⟩ h
  · rw [if_neg h]
    refine iff_of_false ?_ h
    rintro ⟨e, he⟩
    cases he

/-- C5 (code bug): after entity 1 has been destroyed once, a second
`entity.destroy()` call reaches `this.context.destroyEntity(this)` with a
null context and throws a `TypeError` (result flag `false`) instead of
logging a warning; the entity is not pushed onto the pool a second time
and the context state is unchanged. -/
theorem double_destroy_throws :
    ((((World.fresh 0).createEntity).1.entityDestroy 1).2 = true) ∧
      (bugWorldC5.entityDestroy 1).2 = false ∧
      (bugWorldC5.entityDestroy 1).1 = bugWorldC5 ∧
      bugWorldC5.entityPool = [1] := by
  decide

/-! ### Lemmas: reactive ticks (claim C8) -/

theorem rootTick_of_count_pos (s : ReactiveSys) (h : s.group.count > 0) :
    rootTick s = (s.group.matched, { group := s.group.clearAll }) := by
  unfold rootTick
  rw [if_pos h]
  rfl

theorem rootTick_cleared (g : Group) :
    rootTick { group := g.clearAll } = ([], { group := g.clearAll }) := by
  unfold rootTick
  rw [if_neg (by unfold Group.clearAll; simp)]

/-- C8: if a ReactiveSystem's group currently holds entity `eid` (tick N)
and its `count` is at least the membership size (which the maintenance
always guarantees), then the RootSystem runs the system on tick N and the
delivered `matchEntities` contain `eid`; the group is cleared afterwards,
so with no further component mutation the entity is delivered on no later
tick. -/
theorem reactive_one_shot (g : Group) (eid : Eid)
    (hmem : eid ∈ g.matched) (hcnt : g.matched.length ≤ g.count) :
    eid ∈ (runTicks { group := g } 0).1 ∧
      ∀ k, eid ∉ (runTicks { group := g } (k + 1)).1 := by
  have hpos : g.count > 0 :=
    lt_of_lt_of_le (List.length_pos.mpr (List.ne_nil_of_mem hmem)) hcnt
  have h0 : runTicks { group := g } 0 = (g.matched, { group := g.clearAll }) :=
    rootTick_of_count_pos { group := g } hpos
  constructor
  · rw [h0]
    exact hmem
  · have hfix : ∀ k, (runTicks { group := g } k).2 = { group := g.clearAll } := by
      intro k
      induction k with
      | zero => rw [h0]
      | succ k ih =>
          show (rootTick (runTicks { group := g } k).2).2 = _
          rw [ih, rootTick_cleared]
    intro k
    show eid ∉ (rootTick (runTicks { group := g } k).2).1
    rw [hfix k, rootTick_cleared]
    exact List.not_mem_nil eid

/-- Witness for C8: a reactive group over `Matcher.allOf(type 0)` holding
entity 7 delivers it on the current tick and not on the next. -/
theorem reactive_one_shot_witness :
    (7 ∈ witGroupC8.matched ∧ witGroupC8.matched.length ≤ witGroupC8.count) ∧
      7 ∈ (runTicks { group := witGroupC8 } 0).1 ∧
      7 ∉ (runTicks { group := witGroupC8 } 1).1 :=
  ⟨⟨by decide, by decide⟩,
    (reactive_one_shot witGroupC8 7 (by decide) (by decide)).1,
    (reactive_one_shot witGroupC8 7 (by decide) (by decide)).2 0⟩

/-! ### Lemmas: OnlyOf exact membership (claim C9) -/

theorem Rule.allOf_isMatch_iff (args : List Tid) (em : Mask) :
    ({ kind := RuleKind.allOf, args := args } : Rule).isMatch em = true ↔
      ∀ a ∈ args, em.testBit a = true := by
  show Mask.and (Rule.mask { kind := RuleKind.allOf, args := args }) em = true ↔ _
  rw [Mask.and_eq_true_iff]
  constructor
  · intro h a ha
    refine h a ?_
    rw [Rule.testBit_mask]
    exact decide_eq_true ha
  · intro h i hi
    rw [Rule.testBit_mask] at hi
    exact h i (of_decide_eq_true hi)

theorem Rule.excludeOf_isMatch_iff (args : List Tid) (em : Mask) :
    ({ kind := RuleKind.excludeOf, args := args } : Rule).isMatch em = true ↔
      ∀ a ∈ args, em.testBit a = false := by
  show (!(Mask.or (Rule.mask { kind := RuleKind.excludeOf, args := args }) em)) = true ↔ _
  rw [Bool.not_eq_true']
  constructor
  · intro h a ha
    cases hb : em.testBit a with
    | false => rfl
    | true =>
        exfalso
        have : Mask.or (Rule.mask { kind := RuleKind.excludeOf, args := args }) em = true :=
          (Mask.or_eq_true_iff _ em).mpr
            ⟨a, by rw [Rule.testBit_mask]; exact decide_eq_true ha, hb⟩
        rw [h] at this
        cases this
  · intro h
    rw [← Bool.not_eq_true, Mask.or_eq_true_iff]
    rintro ⟨i, hi1, hi2⟩
    rw [Rule.testBit_mask] at hi1
    rw [h i (of_decide_eq_true hi1)] at hi2
    cases hi2

/-- C9: with `n` registered types (ids `0..n-1`), every `onlyOf` argument
registered and the entity mask within capacity, `Matcher.onlyOf(args)`
matches exactly the entities whose component set equals the argument set:
`AllOf(args)` forces every argument bit and the generated
`ExcludeOf(everything else registered)` forbids every other bit. -/
theorem onlyOf_exact_membership (n : Nat) (args : List Tid) (em : Mask)
    (_hargs : ∀ a ∈ args, a < n) (hem : em < 2 ^ n) :
    ((Matcher.onlyOfNew n args).isMatch em = true ↔
      ∀ i, (em.testBit i = true ↔ i ∈ args)) := by
  have hrules : (Matcher.onlyOfNew n args).isMatch em =
      (({ kind := RuleKind.allOf, args := args } : Rule).isMatch em &&
        (({ kind := RuleKind.excludeOf,
            args := (List.range n).filter (fun t => t ∉ args) } : Rule).isMatch em && true)) := rfl
  rw [hrules]
  simp only [Bool.and_true, Bool.and_eq_true]
  rw [Rule.allOf_isMatch_iff, Rule.excludeOf_isMatch_iff]
  constructor
  · rintro ⟨hall, hexc⟩ i
    constructor
    · intro hbit
      by_contra hmem
      have hilt : i < n := by
        by_contra hge
        have : em.testBit i = false :=
          Nat.testBit_lt_two_pow
            (lt_of_lt_of_le hem (Nat.pow_le_pow_right (by omega) (by omega)))
        rw [this] at hbit
        cases hbit
      have : em.testBit i = false :=
        hexc i (List.mem_filter.mpr ⟨List.mem_range.mpr hilt, decide_eq_true hmem⟩)
      rw [this] at hbit
      cases hbit
    · exact hall i
  · intro h
    refine ⟨fun a ha => (h a).mpr ha, fun a ha => ?_⟩
    obtain ⟨har, hna⟩ := List.mem_filter.mp ha
    cases hb : em.testBit a with
    | false => rfl
    | true =>
        exfalso
        exact (of_decide_eq_true hna) ((h a).mp hb)

/-- Witness for C9: with Position (id 0) and Velocity (id 1) registered,
`Matcher.onlyOf(Position)` evaluated on the mask `{Position, Velocity}`
(value 3) matches exactly when every set bit is bit 0 — which fails, and
on mask `{Position}` (value 1) it matches. -/
theorem onlyOf_exact_membership_witness :
    ((∀ a ∈ [0], a < 2) ∧ (3 : Nat) < 2 ^ 2) ∧
      ((Matcher.onlyOfNew 2 [0]).isMatch 3 = true ↔
        ∀ i, ((3 : Nat).testBit i = true ↔ i ∈ [0])) ∧
      (Matcher.onlyOfNew 2 [0]).isMatch 1 = true ∧
      (Matcher.onlyOfNew 2 [0]).isMatch 3 = false :=
  ⟨⟨by decide, by decide⟩,
    onlyOf_exact_membership 2 [0] 3 (by decide) (by decide),
    by decide, by decide⟩

/-! ### Lemmas: add/remove post-states (claim C3) -/

theorem World.entComps_eq (w : World) (eid : Eid) (er : EntityRec)
    (h : mapLookup w.ents eid = some er) : w.entComps eid = er.comps := by
  unfold World.entComps
  rw [h]
  rfl

theorem entityRemove_eq_of_has (w : World) (eid : Eid) (tid : Tid) (er : EntityRec)
    (hent : mapLookup w.ents eid = some er) (hhas : Mask.has er.mask tid = true) :
    w.entityRemove eid tid =
      ((w.putComponent tid ((mapLookup er.comps tid).getD 0)).updateEnt eid
        (fun e => { e with mask := Mask.delete e.mask tid, comps := mapErase e.comps tid })).broadcast
        eid tid := by
  unfold World.entityRemove
  rw [hent]
  show (if Mask.has er.mask tid = true then _ else w) = _
  rw [if_pos hhas]

theorem entityRemove_spec_of_has (w : World) (eid : Eid) (tid : Tid) (er : EntityRec)
    (hent : mapLookup w.ents eid = some er) (hhas : Mask.has er.mask tid = true) :
    (w.entityRemove eid tid).ents = mapUpdate w.ents eid
      (fun e => { e with mask := Mask.delete e.mask tid, comps := mapErase e.comps tid }) ∧
    (w.entityRemove eid tid).log = w.log ++ [(eid, tid)] ∧
    (w.entityRemove eid tid).singletons = mapErase w.singletons tid ∧
    (w.entityRemove eid tid).entityPool = w.entityPool ∧
    (w.entityRemove eid tid).nextEid = w.nextEid ∧
    (w.entityRemove eid tid).liveIndex = w.liveIndex := by
  rw [entityRemove_eq_of_has w eid tid er hent hhas]
  exact ⟨rfl, rfl, rfl, rfl, rfl, rfl⟩

theorem entityAdd_eq (w : World) (eid : Eid) (tid : Tid) (er : EntityRec)
    (hent : mapLookup w.ents eid = some er) (hctx : er.hasContext = true) :
    w.entityAdd eid tid =
      (let w1 := if Mask.has er.mask tid = true then w.entityRemove eid tid else w
       let w2 := w1.updateEnt eid (fun e => { e with mask := Mask.set e.mask tid })
       let inst := (w2.createComponent tid).2
       let w4 := (w2.createComponent tid).1.updateEnt eid
         (fun e => { e with comps := mapSet e.comps tid inst })
       (w4.broadcast eid tid, some inst)) := by
  unfold World.entityAdd
  rw [hent]
  show (if er.hasContext = true then _ else (w, none)) = _
  rw [if_pos hctx]

theorem entityAdd_spec (w : World) (eid : Eid) (tid : Tid) (er : EntityRec)
    (hent : mapLookup w.ents eid = some er) (hctx : er.hasContext = true) :
    ∃ c,
      (w.entityAdd eid tid).2 = some c ∧
      mapLookup (w.entityAdd eid tid).1.ents eid =
        some { er with
          mask := Mask.set
            (if Mask.has er.mask tid = true then Mask.delete er.mask tid else er.mask) tid,
          comps := mapSet
            (if Mask.has er.mask tid = true then mapErase er.comps tid else er.comps) tid c } ∧
      (w.entityAdd eid tid).1.log =
        w.log ++ (if Mask.has er.mask tid = true then [(eid, tid), (eid, tid)] else [(eid, tid)]) := by
  rw [entityAdd_eq w eid tid er hent hctx]
  by_cases hhas : Mask.has er.mask tid = true
  · simp only [if_pos hhas]
    obtain ⟨hents, hlog, _hsing, _hpool, _hnext, _hlive⟩ :=
      entityRemove_spec_of_has w eid tid er hent hhas
    set wr := w.entityRemove eid tid with hwr
    set w2 := wr.updateEnt eid (fun e => { e with mask := Mask.set e.mask tid }) with hw2
    have hframe := World.createComponent_frame w2 tid
    refine ⟨(w2.createComponent tid).2, rfl, ?_, ?_⟩
    · show mapLookup (((w2.createComponent tid).1).updateEnt eid
        (fun e => { e with comps := mapSet e.comps tid ((w2.createComponent tid).2) })).ents eid = _
      rw [mapLookup_updateEnt, hframe.1, hw2, mapLookup_updateEnt, hwr, hents,
        mapLookup_mapUpdate, hent]
      rfl
    · show (((w2.createComponent tid).1).updateEnt eid
        (fun e => { e with comps := mapSet e.comps tid ((w2.createComponent tid).2) })).log
          ++ [(eid, tid)] = _
      show ((w2.createComponent tid).1).log ++ [(eid, tid)] = _
      rw [hframe.2.2.1, hw2]
      show wr.log ++ [(eid, tid)] = _
      rw [hwr, hlog, List.append_assoc]
      rfl
  · simp only [if_neg hhas]
    set w2 := w.updateEnt eid (fun e => { e with mask := Mask.set e.mask tid }) with hw2
    have hframe := World.createComponent_frame w2 tid
    refine ⟨(w2.createComponent tid).2, rfl, ?_, ?_⟩
    · show mapLookup (((w2.createComponent tid).1).updateEnt eid
        (fun e => { e with comps := mapSet e.comps tid ((w2.createComponent tid).2) })).ents eid = _
      rw [mapLookup_updateEnt, hframe.1, hw2, mapLookup_updateEnt, hent]
      rfl
    · show (((w2.createComponent tid).1).updateEnt eid
        (fun e => { e with comps := mapSet e.comps tid ((w2.createComponent tid).2) })).log
          ++ [(eid, tid)] = _
      show ((w2.createComponent tid).1).log ++ [(eid, tid)] = _
      rw [hframe.2.2.1, hw2]
      rfl

/-- C3: on a live entity, calling `add` twice for the same component type
leaves exactly one instance of that type attached — the one returned by the
second call — and the second call broadcasts exactly twice for that type
(once from the implicit `remove`, once from the add). -/
theorem add_twice_replace_semantics (w : World) (eid : Eid) (tid : Tid) (er : EntityRec)
    (hent : mapLookup w.ents eid = some er) (hctx : er.hasContext = true)
    (hnd : (mapKeys er.comps).Nodup) :
    ∃ c2,
      ((w.entityAdd eid tid).1.entityAdd eid tid).2 = some c2 ∧
      mapLookup (((w.entityAdd eid tid).1.entityAdd eid tid).1.entComps eid) tid = some c2 ∧
      (mapKeys (((w.entityAdd eid tid).1.entityAdd eid tid).1.entComps eid)).count tid = 1 ∧
      ((w.entityAdd eid tid).1.entityAdd eid tid).1.log =
        (w.entityAdd eid tid).1.log ++ [(eid, tid), (eid, tid)] := by
  obtain ⟨c1, _hc1, hlook1, _hlog1⟩ := entityAdd_spec w eid tid er hent hctx
  have hctx1 : ({ er with
      mask := Mask.set
        (if Mask.has er.mask tid = true then Mask.delete er.mask tid else er.mask) tid,
      comps := mapSet
        (if Mask.has er.mask tid = true then mapErase er.comps tid else er.comps) tid
        c1 } : EntityRec).hasContext = true := hctx
  have hmask1 : Mask.has ({ er with
      mask := Mask.set
        (if Mask.has er.mask tid = true then Mask.delete er.mask tid else er.mask) tid,
      comps := mapSet
        (if Mask.has er.mask tid = true then mapErase er.comps tid else er.comps) tid
        c1 } : EntityRec).mask tid = true := by
    show Mask.has (Mask.set _ tid) tid = true
    rw [Mask.has_set]
    simp
  have hndbase : (mapKeys
      (if Mask.has er.mask tid = true then mapErase er.comps tid else er.comps)).Nodup := by
    by_cases hhas : Mask.has er.mask tid = true
    · rw [if_pos hhas]
      exact nodupKeys_mapErase er.comps tid hnd
    · rwa [if_neg hhas]
  have hnd1 : (mapKeys ({ er with
      mask := Mask.set
        (if Mask.has er.mask tid = true then Mask.delete er.mask tid else er.mask) tid,
      comps := mapSet
        (if Mask.has er.mask tid = true then mapErase er.comps tid else er.comps) tid
        c1 } : EntityRec).comps).Nodup := by
    show (mapKeys (mapSet _ tid c1)).Nodup
    exact nodupKeys_mapSet _ tid c1 hndbase
  obtain ⟨c2, hc2, hlook2, hlog2⟩ := entityAdd_spec _ eid tid _ hlook1 hctx1
  simp only [if_pos hmask1] at hlook2 hlog2
  refine ⟨c2, hc2, ?_, ?_, by rw [hlog2]⟩
  · rw [World.entComps_eq _ eid _ hlook2]
    show mapLookup (mapSet _ tid c2) tid = some c2
    exact mapLookup_mapSet_self _ tid c2
  · rw [World.entComps_eq _ eid _ hlook2]
    show (mapKeys (mapSet (mapErase (mapSet _ tid c1) tid) tid c2)).count tid = 1
    have hnotmem : tid ∉ mapKeys (mapErase (mapSet
        (if Mask.has er.mask tid = true then mapErase er.comps tid else er.comps) tid c1) tid) :=
      not_mem_mapKeys_mapErase_self _ tid (nodupKeys_mapSet _ tid c1 hndbase)
    rw [mapKeys_mapSet, if_neg hnotmem, List.count_append, List.count_eq_zero.mpr hnotmem]
    simp

/-! ### Lemmas: entity destruction (claims C6 and C10) -/

theorem destroyLoop_spec (cs : List (Tid × InstId)) (w : World) (eid : Eid) (er : EntityRec)
    (hent : mapLookup w.ents eid = some er) :
    (w.destroyLoop eid cs).groups = w.groups.map (fun g => notifyLoop eid g er.mask cs) ∧
    (w.destroyLoop eid cs).pools = w.pools ∧
    (w.destroyLoop eid cs).entityPool = w.entityPool ∧
    (w.destroyLoop eid cs).liveIndex = w.liveIndex ∧
    mapLookup (w.destroyLoop eid cs).ents eid =
      some { er with mask := cs.foldl (fun m p => Mask.delete m p.1) er.mask } := by
  induction cs generalizing w er with
  | nil =>
    refine ⟨?_, rfl, rfl, rfl, ?_⟩
    · show w.groups = w.groups.map (fun g => g)
      rw [List.map_id']
    · exact hent
  | cons p rest ih =>
    obtain ⟨t, inst⟩ := p
    have hlook1 : mapLookup (w.updateEnt eid (fun e =>
        { e with mask := Mask.delete e.mask t })).ents eid =
        some { er with mask := Mask.delete er.mask t } := by
      rw [mapLookup_updateEnt, hent]
      rfl
    have hlook2 : mapLookup ((w.updateEnt eid (fun e =>
        { e with mask := Mask.delete e.mask t })).broadcast eid t).ents eid =
        some { er with mask := Mask.delete er.mask t } := hlook1
    have hmask1 : (w.updateEnt eid (fun e =>
        { e with mask := Mask.delete e.mask t })).entMask eid = Mask.delete er.mask t := by
      rw [World.entMask_updateEnt w eid er _ hent]
    obtain ⟨ihg, ihp, ihe, ihl, ihent⟩ := ih
      ((w.updateEnt eid (fun e => { e with mask := Mask.delete e.mask t })).broadcast eid t)
      { er with mask := Mask.delete er.mask t } hlook2
    refine ⟨?_, ihp, ihe, ihl, ihent⟩
    show (((w.updateEnt eid (fun e => { e with mask := Mask.delete e.mask t })).broadcast
        eid t).destroyLoop eid rest).groups = _
    rw [ihg]
    show ((w.groups.map fun g => g.notify t eid ((w.updateEnt eid (fun e =>
      { e with mask := Mask.delete e.mask t })).entMask eid)).map fun g =>
        notifyLoop eid g (Mask.delete er.mask t) rest) = _
    rw [hmask1, List.map_map]
    rfl

theorem contextDestroyEntity_of_live (w : World) (eid : Eid) (h : eid ∈ w.liveIndex) :
    w.contextDestroyEntity eid =
      { w with entityPool := w.entityPool ++ [eid], liveIndex := w.liveIndex.erase eid } := by
  unfold World.contextDestroyEntity
  rw [if_pos h]

theorem entityDestroy_eq_of_ctx (w : World) (eid : Eid) (er : EntityRec)
    (hent : mapLookup w.ents eid = some er) (hctx : er.hasContext = true) :
    w.entityDestroy eid =
      ((((w.destroyLoop eid er.comps).updateEnt eid
          (fun e => { e with comps := [], mask := 0 })).contextDestroyEntity eid).updateEnt eid
        (fun e => { e with hasContext := false }), true) := by
  unfold World.entityDestroy
  rw [hent]
  show (if er.hasContext = true then _ else ((w.destroyLoop eid er.comps).updateEnt eid
    (fun e => { e with comps := [], mask := 0 }), false)) = _
  rw [if_pos hctx]

theorem entityDestroy_spec (w : World) (eid : Eid) (er : EntityRec)
    (hent : mapLookup w.ents eid = some er) (hctx : er.hasContext = true)
    (hlive : eid ∈ w.liveIndex) :
    (w.entityDestroy eid).2 = true ∧
    (w.entityDestroy eid).1.pools = w.pools ∧
    (w.entityDestroy eid).1.entityPool = w.entityPool ++ [eid] ∧
    (w.entityDestroy eid).1.liveIndex = w.liveIndex.erase eid ∧
    (w.entityDestroy eid).1.groups =
      w.groups.map (fun g => notifyLoop eid g er.mask er.comps) ∧
    mapLookup (w.entityDestroy eid).1.ents eid =
      some { mask := 0, comps := [], hasContext := false } := by
  obtain ⟨hg, hp, he, hl, hlook⟩ := destroyLoop_spec er.comps w eid er hent
  have hliveA : eid ∈ ((w.destroyLoop eid er.comps).updateEnt eid
      (fun e => { e with comps := [], mask := 0 })).liveIndex := by
    show eid ∈ (w.destroyLoop eid er.comps).liveIndex
    rw [hl]
    exact hlive
  rw [entityDestroy_eq_of_ctx w eid er hent hctx]
  rw [contextDestroyEntity_of_live _ eid hliveA]
  refine ⟨rfl, hp, ?_, ?_, hg, ?_⟩
  · show (w.destroyLoop eid er.comps).entityPool ++ [eid] = w.entityPool ++ [eid]
    rw [he]
  · show ((w.destroyLoop eid er.comps).liveIndex).erase eid = w.liveIndex.erase eid
    rw [hl]
  · show mapLookup (mapUpdate (mapUpdate (w.destroyLoop eid er.comps).ents eid
      (fun e => { e with comps := [], mask := 0 })) eid
      (fun e => { e with hasContext := false })) eid = _
    rw [mapLookup_mapUpdate, mapLookup_mapUpdate, hlook]
    rfl

theorem notifyLoop_matcher (cs : List (Tid × InstId)) (eid : Eid) (g : Group) (m : Mask) :
    (notifyLoop eid g m cs).matcher = g.matcher := by
  induction cs generalizing g m with
  | nil => rfl
  | cons p rest ih =>
      obtain ⟨t, inst⟩ := p
      show (notifyLoop eid (g.notify t eid (Mask.delete m t)) (Mask.delete m t) rest).matcher = _
      rw [ih, Group.notify_matcher]

theorem notifyLoop_of_none_subscribed (cs : List (Tid × InstId)) (eid : Eid) (g : Group)
    (m : Mask) (h : ∀ p ∈ cs, p.1 ∉ g.matcher.indices) : notifyLoop eid g m cs = g := by
  induction cs generalizing g m with
  | nil => rfl
  | cons p rest ih =>
      obtain ⟨t, inst⟩ := p
      show notifyLoop eid (g.notify t eid (Mask.delete m t)) (Mask.delete m t) rest = g
      rw [Group.notify_of_not_subscribed g t eid _ (h (t, inst) (List.mem_cons_self _ _))]
      exact ih g _ fun p hp => h p (List.mem_cons_of_mem _ hp)

theorem mem_notifyLoop (cs : List (Tid × InstId)) (eid : Eid) (g : Group) (m : Mask)
    (hnd : g.matched.Nodup)
    (hm0 : g.matcher.isMatch 0 = true)
    (hcov : ∀ i ∈ g.matcher.indices, m.testBit i = true → i ∈ cs.map Prod.fst)
    (hsub : ∃ t ∈ cs.map Prod.fst, t ∈ g.matcher.indices) :
    eid ∈ (notifyLoop eid g m cs).matched := by
  induction cs generalizing g m with
  | nil =>
      obtain ⟨t, ht, -⟩ := hsub
      cases ht
  | cons p rest ih =>
      obtain ⟨t, inst⟩ := p
      have hmap : ((t, inst) :: rest).map Prod.fst = t :: rest.map Prod.fst := rfl
      by_cases hrest : ∃ u ∈ rest.map Prod.fst, u ∈ g.matcher.indices
      · show eid ∈ (notifyLoop eid (g.notify t eid (Mask.delete m t)) (Mask.delete m t)
          rest).matched
        have hmat2 := Group.notify_matcher g t eid (Mask.delete m t)
        refine ih _ _ (Group.notify_nodup g t eid _ hnd) ?_ ?_ ?_
        · rw [hmat2]
          exact hm0
        · intro i hi hbit
          rw [hmat2] at hi
          have h5 := Mask.has_delete m t i
          unfold Mask.has at h5
          rw [hbit] at h5
          have h6 : m.testBit i = true ∧ ¬(t = i) := by
            cases hmi : m.testBit i with
            | false => rw [hmi] at h5; cases h5
            | true =>
                refine ⟨rfl, ?_⟩
                intro hti
                rw [hmi, hti] at h5
                simp at h5
          have h7 := hcov i hi h6.1
          rw [hmap] at h7
          rcases List.mem_cons.mp h7 with h8 | h8
          · exact absurd h8.symm h6.2
          · exact h8
        · rw [hmat2]
          obtain ⟨u, hu, hui⟩ := hrest
          exact ⟨u, hu, hui⟩
      · have ht_in : t ∈ g.matcher.indices := by
          obtain ⟨u, hu, hui⟩ := hsub
          rw [hmap] at hu
          rcases List.mem_cons.mp hu with rfl | h2
          · exact hui
          · exact absurd ⟨u, h2, hui⟩ hrest
        have hmatch : g.matcher.isMatch (Mask.delete m t) = true := by
          rw [Matcher.isMatch_congr g.matcher (Mask.delete m t) 0 ?_]
          · exact hm0
          · intro i hi
            rw [Nat.zero_testBit]
            cases hb : (Mask.delete m t).testBit i with
            | false => rfl
            | true =>
                exfalso
                have h5 := Mask.has_delete m t i
                unfold Mask.has at h5
                rw [hb] at h5
                have h6 : m.testBit i = true ∧ ¬(t = i) := by
                  cases hmi : m.testBit i with
                  | false => rw [hmi] at h5; cases h5
                  | true =>
                      refine ⟨rfl, ?_⟩
                      intro hti
                      rw [hmi, hti] at h5
                      simp at h5
                have h7 := hcov i hi h6.1
                rw [hmap] at h7
                rcases List.mem_cons.mp h7 with h8 | h8
                · exact h6.2 h8.symm
                · exact hrest ⟨i, h8, hi⟩
        have hmem2 : eid ∈ (g.notify t eid (Mask.delete m t)).matched :=
          (Group.mem_notify_of_subscribed g t eid _ ht_in hnd).mpr hmatch
        show eid ∈ (notifyLoop eid (g.notify t eid (Mask.delete m t)) (Mask.delete m t)
          rest).matched
        rw [notifyLoop_of_none_subscribed rest eid _ _ ?_]
        · exact hmem2
        · intro p hp
          rw [Group.notify_matcher]
          intro hpi
          exact hrest ⟨p.1, List.mem_map.mpr ⟨p, hp, rfl⟩, hpi⟩

theorem mem_of_getLast?_eq_some {α : Type} {l : List α} {a : α}
    (h : l.getLast? = some a) : a ∈ l := by
  obtain ⟨hne, rfl⟩ := List.mem_getLast?_eq_getLast h
  exact List.getLast_mem hne

theorem createEntity_eq_of_pool (w : World) (e : Eid) (h : w.entityPool.getLast? = some e) :
    w.createEntity =
      (let w1 : World := { w with entityPool := w.entityPool.dropLast }
       let w2 := w1.updateEnt e (fun x => { x with hasContext := true })
       ({ w2 with liveIndex := if e ∈ w2.liveIndex then w2.liveIndex else w2.liveIndex ++ [e] },
        e)) := by
  unfold World.createEntity
  rw [h]

/-- C6 (amended): `entity.destroy()` on a live entity broadcasts a removal
per attached component and detaches them, but returns no component
instance to the per-type pools (`pools` is unchanged — the instances are
dropped); it clears the mask and the slot table, pushes the entity onto
the entity free pool, and removes it from the live index, so the next
`createEntity()` recycles exactly this entity with an empty mask and no
attached components. -/
theorem destroy_detaches_and_recycles (w : World) (eid : Eid) (er : EntityRec)
    (hent : mapLookup w.ents eid = some er) (hctx : er.hasContext = true)
    (hlive : eid ∈ w.liveIndex) (hlnd : w.liveIndex.Nodup) :
    (w.entityDestroy eid).2 = true ∧
    (w.entityDestroy eid).1.pools = w.pools ∧
    mapLookup (w.entityDestroy eid).1.ents eid =
      some { mask := 0, comps := [], hasContext := false } ∧
    eid ∈ (w.entityDestroy eid).1.entityPool ∧
    eid ∉ (w.entityDestroy eid).1.liveIndex ∧
    ((w.entityDestroy eid).1.createEntity).2 = eid ∧
    mapLookup ((w.entityDestroy eid).1.createEntity).1.ents eid =
      some { mask := 0, comps := [], hasContext := true } := by
  obtain ⟨hok, hpools, hpool, hlidx, _hgroups, hlook⟩ :=
    entityDestroy_spec w eid er hent hctx hlive
  have hgl : ((w.entityDestroy eid).1).entityPool.getLast? = some eid := by
    rw [hpool]
    exact List.getLast?_concat _
  have hce := createEntity_eq_of_pool ((w.entityDestroy eid).1) eid hgl
  refine ⟨hok, hpools, hlook, ?_, ?_, ?_, ?_⟩
  · rw [hpool]
    exact List.mem_append.mpr (Or.inr (List.mem_singleton_self eid))
  · rw [hlidx]
    exact hlnd.not_mem_erase
  · rw [hce]
  · rw [hce]
    show mapLookup (mapUpdate ((w.entityDestroy eid).1).ents eid
      (fun x => { x with hasContext := true })) eid = _
    rw [mapLookup_mapUpdate, hlook]
    rfl

/-- Counterexample to C6 as stated: with one registered type, entity 1
holds a freshly constructed instance (tag 0) of component 0; after
`entity.destroy()` the pool of component 0 is still empty — the attached
instance was not released back to the per-type free pool. -/
theorem destroy_pool_cex :
    mapLookup (cexWorldC6.entComps 1) 0 = some 0 ∧
      cexWorldC6.pools = [[]] ∧
      (cexWorldC6.entityDestroy 1).2 = true ∧
      (cexWorldC6.entityDestroy 1).1.pools = [[]] := by
  decide

/-- Witness for C6: the amended destroy behaviour evaluated on the
one-component world where entity 1 holds instance 0 of type 0. -/
theorem destroy_detaches_and_recycles_witness :
    (mapLookup cexWorldC6.ents 1 = some { mask := 1, comps := [(0, 0)], hasContext := true }) ∧
      (cexWorldC6.entityDestroy 1).2 = true ∧
      (cexWorldC6.entityDestroy 1).1.pools = cexWorldC6.pools ∧
      mapLookup (cexWorldC6.entityDestroy 1).1.ents 1 =
        some { mask := 0, comps := [], hasContext := false } ∧
      1 ∈ (cexWorldC6.entityDestroy 1).1.entityPool ∧
      1 ∉ (cexWorldC6.entityDestroy 1).1.liveIndex ∧
      ((cexWorldC6.entityDestroy 1).1.createEntity).2 = 1 ∧
      mapLookup ((cexWorldC6.entityDestroy 1).1.createEntity).1.ents 1 =
        some { mask := 0, comps := [], hasContext := true } :=
  ⟨by decide,
    (destroy_detaches_and_recycles cexWorldC6 1
      { mask := 1, comps := [(0, 0)], hasContext := true }
      (by decide) (by decide) (by decide) (by decide)).1,
    (destroy_detaches_and_recycles cexWorldC6 1
      { mask := 1, comps := [(0, 0)], hasContext := true }
      (by decide) (by decide) (by decide) (by decide)).2.1,
    (destroy_detaches_and_recycles cexWorldC6 1
      { mask := 1, comps := [(0, 0)], hasContext := true }
      (by decide) (by decide) (by decide) (by decide)).2.2.1,
    (destroy_detaches_and_recycles cexWorldC6 1
      { mask := 1, comps := [(0, 0)], hasContext := true }
      (by decide) (by decide) (by decide) (by decide)).2.2.2.1,
    (destroy_detaches_and_recycles cexWorldC6 1
      { mask := 1, comps := [(0, 0)], hasContext := true }
      (by decide) (by decide) (by decide) (by decide)).2.2.2.2.1,
    (destroy_detaches_and_recycles cexWorldC6 1
      { mask := 1, comps := [(0, 0)], hasContext := true }
      (by decide) (by decide) (by decide) (by decide)).2.2.2.2.2.1,
    (destroy_detaches_and_recycles cexWorldC6 1
      { mask := 1, comps := [(0, 0)], hasContext := true }
      (by decide) (by decide) (by decide) (by decide)).2.2.2.2.2.2⟩

/-- C10: after `entity.destroy()` on a live entity, every group that is
subscribed to at least one of the entity's previously attached component
types (and whose registered subscriptions cover the entity's mask bits)
and whose matcher accepts the empty mask ends up containing the destroyed
entity: the last per-component broadcast of the destroy loop re-evaluates
the matcher against a mask whose subscribed bits are all already cleared,
inserts the entity, and nothing removes it afterwards. -/
theorem destroyed_entity_in_empty_mask_groups
    (w : World) (eid : Eid) (er : EntityRec) (j : Nat) (g : Group)
    (hent : mapLookup w.ents eid = some er)
    (hctx : er.hasContext = true)
    (hlive : eid ∈ w.liveIndex)
    (hj : w.groups[j]? = some g)
    (hnd : g.matched.Nodup)
    (hm0 : g.matcher.isMatch 0 = true)
    (hcov : ∀ i ∈ g.matcher.indices, Mask.has er.mask i = true → i ∈ er.comps.map Prod.fst)
    (hsub : ∃ t ∈ er.comps.map Prod.fst, t ∈ g.matcher.indices) :
    ∃ g2, (w.entityDestroy eid).1.groups[j]? = some g2 ∧ eid ∈ g2.matched := by
  obtain ⟨-, -, -, -, hgroups, -⟩ := entityDestroy_spec w eid er hent hctx hlive
  refine ⟨notifyLoop eid g er.mask er.comps, ?_, ?_⟩
  · rw [hgroups, List.getElem?_map, hj]
    rfl
  · exact mem_notifyLoop er.comps eid g er.mask hnd hm0 hcov hsub

/-- Witness for C10: one registered type, a group over
`Matcher.excludeOf(type 0)`, entity 1 holding component 0; after
`entity.destroy()` the destroyed entity sits in the ExcludeOf group. -/
theorem destroyed_entity_in_empty_mask_groups_witness :
    (mapLookup witWorldC10.ents 1 = some { mask := 1, comps := [(0, 0)], hasContext := true }) ∧
      witWorldC10.groups[0]? =
        some { matcher := Matcher.excludeOfNew [0], matched := [], count := 0 } ∧
      ∃ g2, (witWorldC10.entityDestroy 1).1.groups[0]? = some g2 ∧ 1 ∈ g2.matched :=
  ⟨by decide, by decide,
    destroyed_entity_in_empty_mask_groups witWorldC10 1
      { mask := 1, comps := [(0, 0)], hasContext := true } 0
      { matcher := Matcher.excludeOfNew [0], matched := [], count := 0 }
      (by decide) (by decide) (by decide) (by decide) (by decide) (by decide)
      (by decide) (by decide)⟩

/-- Witness for C3: two `add` calls for type 0 on the fresh entity 1. -/
theorem add_twice_replace_semantics_witness :
    (mapLookup witWorldC3.ents 1 = some { mask := 0, comps := [], hasContext := true }) ∧
      ∃ c2,
        ((witWorldC3.entityAdd 1 0).1.entityAdd 1 0).2 = some c2 ∧
        mapLookup (((witWorldC3.entityAdd 1 0).1.entityAdd 1 0).1.entComps 1) 0 = some c2 ∧
        (mapKeys (((witWorldC3.entityAdd 1 0).1.entityAdd 1 0).1.entComps 1)).count 0 = 1 ∧
        ((witWorldC3.entityAdd 1 0).1.entityAdd 1 0).1.log =
          (witWorldC3.entityAdd 1 0).1.log ++ [(1, 0), (1, 0)] :=
  ⟨by decide,
    add_twice_replace_semantics witWorldC3 1 0 { mask := 0, comps := [], hasContext := true }
      (by decide) (by decide) (by decide)⟩

/-! ### Lemmas: singleton components (claim C7) -/

theorem mapLookup_mapErase_self {α : Type} (l : List (Nat × α)) (k : Nat)
    (h : (mapKeys l).Nodup) : mapLookup (mapErase l k) k = none := by
  rw [mapLookup_eq_none_iff]
  exact not_mem_mapKeys_mapErase_self l k h

theorem mapLookup_mapUpdate_isSome {α : Type} (l : List (Nat × α)) (k e : Nat) (f : α → α) :
    (mapLookup (mapUpdate l k f) e).isSome = (mapLookup l e).isSome := by
  induction l with
  | nil => rfl
  | cons p l ih =>
      obtain ⟨k1, v1⟩ := p
      by_cases hk : k1 = k
      · subst hk
        by_cases he : k1 = e
        · subst he
          simp [mapUpdate, mapLookup]
        · simp only [mapUpdate, if_pos rfl, mapLookup, if_neg he]
          exact ih
      · by_cases he : k1 = e
        · subst he
          simp [mapUpdate, hk, mapLookup]
        · simp only [mapUpdate, if_neg hk, mapLookup, if_neg he]
          exact ih

theorem createEntity_spec (w : World)
    (hpoolents : ∀ e ∈ w.entityPool, (mapLookup w.ents e).isSome = true) :
    ((w.createEntity).2 ∈ w.entityPool ∨ (w.createEntity).2 = w.nextEid) ∧
    ∃ er0, mapLookup (w.createEntity).1.ents (w.createEntity).2 = some er0 ∧
      er0.hasContext = true := by
  cases hp : w.entityPool.getLast? with
  | some e =>
      have hmem : e ∈ w.entityPool := mem_of_getLast?_eq_some hp
      have hsome := hpoolents e hmem
      rw [createEntity_eq_of_pool w e hp]
      refine ⟨Or.inl hmem, ?_⟩
      obtain ⟨er1, her1⟩ := Option.isSome_iff_exists.mp hsome
      refine ⟨{ er1 with hasContext := true }, ?_, rfl⟩
      show mapLookup (mapUpdate w.ents e (fun x => { x with hasContext := true })) e = _
      rw [mapLookup_mapUpdate, her1]
      rfl
  | none =>
      have hce : w.createEntity =
          (let w1 : World := { w with
             nextEid := w.nextEid + 1
             ents := mapSet w.ents w.nextEid { mask := 0, comps := [], hasContext := true } }
           ({ w1 with liveIndex := if w.nextEid ∈ w1.liveIndex then w1.liveIndex
              else w1.liveIndex ++ [w.nextEid] }, w.nextEid)) := by
        unfold World.createEntity
        rw [hp]
      rw [hce]
      refine ⟨Or.inr rfl, { mask := 0, comps := [], hasContext := true }, ?_, rfl⟩
      show mapLookup (mapSet w.ents w.nextEid { mask := 0, comps := [], hasContext := true })
        w.nextEid = _
      exact mapLookup_mapSet_self _ _ _

theorem getSinglton_eq_of_none (w : World) (tid : Tid)
    (h : mapLookup w.singletons tid = none) :
    w.getSinglton tid =
      ({ ((w.createEntity).1.entityAdd (w.createEntity).2 tid).1 with
          singletons := mapSet
            (((w.createEntity).1.entityAdd (w.createEntity).2 tid).1).singletons tid
            ((((w.createEntity).1.entityAdd (w.createEntity).2 tid).2).getD 0) },
       (((w.createEntity).1.entityAdd (w.createEntity).2 tid).2).getD 0) := by
  unfold World.getSinglton
  rw [h]

/-- C7 (amended): removing the singleton-backed component from its backing
entity evicts the cached binding, so the next `getSinglton` call goes back
through entity/component creation: it creates a fresh backing entity
(distinct from the old one, which is never destroyed) and attaches an
instance taken from that type's pool — which, the evicted instance having
just been pooled by `remove`, may be the very same instance — and caches
that instance again.  What is not true (see the counterexample) is the
claim's assertion that the returned instance is new rather than the
evicted one. -/
theorem singleton_eviction_recreates (w : World) (eid : Eid) (tid : Tid) (er : EntityRec)
    (hent : mapLookup w.ents eid = some er)
    (hhas : Mask.has er.mask tid = true)
    (hpool : eid ∉ w.entityPool)
    (hnext : eid ≠ w.nextEid)
    (hpoolents : ∀ e ∈ w.entityPool, (mapLookup w.ents e).isSome = true)
    (hsnd : (mapKeys w.singletons).Nodup) :
    mapLookup (w.entityRemove eid tid).singletons tid = none ∧
    ∃ e2,
      e2 ≠ eid ∧
      mapLookup ((((w.entityRemove eid tid).getSinglton tid).1).entComps e2) tid =
        some (((w.entityRemove eid tid).getSinglton tid).2) ∧
      mapLookup (((w.entityRemove eid tid).getSinglton tid).1).singletons tid =
        some (((w.entityRemove eid tid).getSinglton tid).2) := by
  obtain ⟨hents2, _hlog2, hsing2, hpool2, hnext2, _hlive2⟩ :=
    entityRemove_spec_of_has w eid tid er hent hhas
  have hnone : mapLookup (w.entityRemove eid tid).singletons tid = none := by
    rw [hsing2]
    exact mapLookup_mapErase_self w.singletons tid hsnd
  refine ⟨hnone, ?_⟩
  have hpoolents2 : ∀ e ∈ (w.entityRemove eid tid).entityPool,
      (mapLookup (w.entityRemove eid tid).ents e).isSome = true := by
    intro e he
    rw [hpool2] at he
    rw [hents2, mapLookup_mapUpdate_isSome]
    exact hpoolents e he
  obtain ⟨hor, er0, hlook0, hctx0⟩ := createEntity_spec (w.entityRemove eid tid) hpoolents2
  have hne2 : ((w.entityRemove eid tid).createEntity).2 ≠ eid := by
    rcases hor with h | h
    · rw [hpool2] at h
      exact fun hEq => hpool (hEq ▸ h)
    · rw [hnext2] at h
      exact fun hEq => hnext (hEq ▸ h)
  obtain ⟨c, hc, hlookAdd, _hlogAdd⟩ :=
    entityAdd_spec ((w.entityRemove eid tid).createEntity).1
      ((w.entityRemove eid tid).createEntity).2 tid er0 hlook0 hctx0
  rw [getSinglton_eq_of_none (w.entityRemove eid tid) tid hnone]
  refine ⟨((w.entityRemove eid tid).createEntity).2, hne2, ?_, ?_⟩
  · show mapLookup (((((w.entityRemove eid tid).createEntity).1.entityAdd
      ((w.entityRemove eid tid).createEntity).2 tid).1).entComps
      ((w.entityRemove eid tid).createEntity).2) tid = _
    rw [World.entComps_eq _ _ _ hlookAdd]
    show mapLookup (mapSet _ tid c) tid = _
    rw [mapLookup_mapSet_self, hc]
    rfl
  · show mapLookup (mapSet ((((w.entityRemove eid tid).createEntity).1.entityAdd
      ((w.entityRemove eid tid).createEntity).2 tid).1).singletons tid
      (((((w.entityRemove eid tid).createEntity).1.entityAdd
        ((w.entityRemove eid tid).createEntity).2 tid).2).getD 0)) tid = _
    rw [mapLookup_mapSet_self]

/-- Counterexample to C7 as stated: with one registered type, the instance
returned by the re-creating `getSinglton` call is the evicted instance
itself (tag 0), recycled through the component pool — no new instance is
constructed (`nextInst` is still 1) — although it does live on a new
backing entity (eid 2). -/
theorem singleton_returns_pooled_cex :
    cexWorldC7a.2 = 0 ∧
      mapLookup cexWorldC7b.singletons 0 = none ∧
      cexWorldC7b.pools = [[0]] ∧
      cexWorldC7c.2 = 0 ∧
      cexWorldC7c.1.nextInst = 1 ∧
      cexWorldC7c.1.liveIndex = [1, 2] := by
  decide

/-- Witness for C7: the amended behaviour evaluated on the one-type world
where the singleton binding for type 0 lives on entity 1. -/
theorem singleton_eviction_recreates_witness :
    (mapLookup cexWorldC7a.1.ents 1 =
      some { mask := 1, comps := [(0, 0)], hasContext := true }) ∧
      mapLookup (cexWorldC7a.1.entityRemove 1 0).singletons 0 = none ∧
      ∃ e2,
        e2 ≠ 1 ∧
        mapLookup ((((cexWorldC7a.1.entityRemove 1 0).getSinglton 0).1).entComps e2) 0 =
          some (((cexWorldC7a.1.entityRemove 1 0).getSinglton 0).2) ∧
        mapLookup (((cexWorldC7a.1.entityRemove 1 0).getSinglton 0).1).singletons 0 =
          some (((cexWorldC7a.1.entityRemove 1 0).getSinglton 0).2) :=
  ⟨by decide,
    (singleton_eviction_recreates cexWorldC7a.1 1 0
      { mask := 1, comps := [(0, 0)], hasContext := true }
      (by decide) (by decide) (by decide) (by decide) (by decide) (by decide)).1,
    (singleton_eviction_recreates cexWorldC7a.1 1 0
      { mask := 1, comps := [(0, 0)], hasContext := true }
      (by decide) (by decide) (by decide) (by decide) (by decide) (by decide)).2⟩

end Ecs
